import Mathlib

/-!
# Verification of the `realip` package (Go)

A shallow embedding of `realip.go` and the parts of the Go standard
library it calls (`net.ParseIP`, `net.ParseCIDR`, `net.IPNet.Contains`,
`net.SplitHostPort`, `strings.TrimSpace`, `strings.Split`,
`strings.ContainsRune`), together with theorems settling the spec claims
about the classifier `isPrivateAddress`, the extractor
`getIPfromHostPort`, and the two resolvers `ClientIPFromRequest` and
`FromRequest`.

Strings are modelled as Lean `String`s, processed through their
underlying `List Char`; IP addresses as `List Nat` of bytes (length 16
for a parsed address, the IPv4 case stored in the IPv4-in-IPv6 mapped
form, exactly as `net.ParseIP` returns a 16-byte slice).
-/

namespace Realip

/-! ## Character and string helpers -/

/-- Decimal digit test, as in Go's parsers (`'0' <= c && c <= '9'`,
stated on code points: `'0'` is 48, `'9'` is 57). -/
def isDig (c : Char) : Bool := 48 ≤ c.toNat && c.toNat ≤ 57

/-- Value of a decimal digit character. -/
def digVal (c : Char) : Nat := c.toNat - 48

/-- Hexadecimal digit test, as in Go's IPv6 parser (`'a'`–`'f'` are
97–102, `'A'`–`'F'` are 65–70). -/
def isHexDig (c : Char) : Bool :=
  (48 ≤ c.toNat && c.toNat ≤ 57) || (97 ≤ c.toNat && c.toNat ≤ 102) ||
  (65 ≤ c.toNat && c.toNat ≤ 70)

/-- Value of a hexadecimal digit character. -/
def hexVal (c : Char) : Nat :=
  if 48 ≤ c.toNat ∧ c.toNat ≤ 57 then c.toNat - 48
  else if 97 ≤ c.toNat ∧ c.toNat ≤ 102 then c.toNat - 97 + 10
  else c.toNat - 65 + 10

/-- Does character `c` occur in the list?  Models `strings.ContainsRune`. -/
def hasChar (c : Char) : List Char → Bool
  | [] => false
  | x :: xs => (x = c) || hasChar c xs

/-- Number of occurrences of a character. -/
def countChar (c : Char) : List Char → Nat
  | [] => 0
  | x :: xs => (if x = c then 1 else 0) + countChar c xs

/-- Index of the first occurrence of `c`, if any. -/
def firstIdx (c : Char) : List Char → Option Nat
  | [] => none
  | x :: xs =>
    if x = c then some 0
    else match firstIdx c xs with
      | some i => some (i + 1)
      | none => none

/-- Index of the last occurrence of `c`, if any.  Models Go's
`last(hostPort, ':')` in `net.SplitHostPort`. -/
def lastIdx (c : Char) : List Char → Option Nat
  | [] => none
  | x :: xs =>
    match lastIdx c xs with
    | some i => some (i + 1)
    | none => if x = c then some 0 else none

/-- Go's `unicode.IsSpace` on the code points `strings.TrimSpace` trims:
the White_Space property. -/
def goIsSpace (c : Char) : Bool :=
  c = ' ' || c = '\t' || c = '\n' || c.toNat = 11 || c.toNat = 12 ||
  c = '\r' || c.toNat = 0x85 || c.toNat = 0xA0 || c.toNat = 0x1680 ||
  (0x2000 ≤ c.toNat && c.toNat ≤ 0x200A) || c.toNat = 0x2028 ||
  c.toNat = 0x2029 || c.toNat = 0x202F || c.toNat = 0x205F ||
  c.toNat = 0x3000

/-- Drop trailing characters satisfying `p`. -/
def dropTrailing (p : Char → Bool) (cs : List Char) : List Char :=
  (cs.reverse.dropWhile p).reverse

/-- Model of Go `strings.TrimSpace`. -/
def trimSpaceGo (s : String) : String :=
  ⟨dropTrailing goIsSpace (s.data.dropWhile goIsSpace)⟩

/-- Split a character list on a separator character (keeping empty
pieces), the character-level core of `strings.Split(s, ",")`. -/
def splitCharAux (sep : Char) : List Char → List Char → List (List Char)
  | [], acc => [acc.reverse]
  | c :: cs, acc =>
    if c = sep then acc.reverse :: splitCharAux sep cs []
    else splitCharAux sep cs (c :: acc)

/-- Model of Go `strings.Split(s, sep)` for a one-character separator:
splitting the empty string gives `[""]`, exactly as in Go. -/
def splitGo (sep : Char) (s : String) : List String :=
  (splitCharAux sep s.data []).map String.mk

/-! ## Go `net` IPv4 parsing (`netip.parseIPv4Fields`)

`net.ParseIP` delegates to `netip.ParseAddr`.  An IPv4 literal is four
dot-separated fields, each one a non-empty run of decimal digits with no
leading zero (unless the field is exactly "0") and value at most 255. -/

/-- Parse a single IPv4 octet field, rejecting empties, non-digits,
leading zeros and values above 255. -/
def parseOctet (cs : List Char) : Option Nat :=
  if cs.isEmpty then none
  else if !(cs.all isDig) then none
  else if 1 < cs.length && cs.head? = some '0' then none
  else if 255 < cs.foldl (fun a c => a * 10 + digVal c) 0 then none
  else some (cs.foldl (fun a c => a * 10 + digVal c) 0)

/-- Model of Go's IPv4 literal parser (`netip.parseIPv4` applied to the
whole string): exactly four dot-separated valid octet fields.  Returns
the four bytes. -/
def parseIPv4Go (cs : List Char) : Option (List Nat) :=
  match splitCharAux '.' cs [] with
  | [f1, f2, f3, f4] =>
    match parseOctet f1, parseOctet f2, parseOctet f3, parseOctet f4 with
    | some a, some b, some c, some d => some [a, b, c, d]
    | _, _, _, _ => none
  | _ => none

/-! ## Go `net` IPv6 parsing (`netip.parseIPv6`) -/

/-- Consume a leading group of 1–4 hexadecimal digits; more than four
digits, or none, is an error, as in `netip.parseIPv6`. -/
def hexGroup (cs : List Char) : Option (Nat × List Char) :=
  if (cs.takeWhile isHexDig).length = 0 ∨ 4 < (cs.takeWhile isHexDig).length
  then none
  else some ((cs.takeWhile isHexDig).foldl (fun a c => a * 16 + hexVal c) 0,
    cs.drop (cs.takeWhile isHexDig).length)

/-- Expansion / final checks of `netip.parseIPv6` after its main loop:
the input must be exhausted; a short address needs an ellipsis, at whose
position the missing zero bytes are inserted; a full 16-byte address must
not also carry an ellipsis. -/
def ipv6Finish (s : List Char) (i : Nat) (ell : Option Nat)
    (acc : List Nat) : Option (List Nat) :=
  if !s.isEmpty then none
  else if i < 16 then
    match ell with
    | none => none
    | some e => some (acc.take e ++ List.replicate (16 - i) 0 ++ acc.drop e)
  else if ell.isSome then none
  else some acc

/-- Main loop of `netip.parseIPv6`: `s` is the remaining input, `i` the
number of bytes produced so far, `ell` the ellipsis byte position if one
was seen, `acc` the bytes produced so far.  A group of hex digits yields
two bytes; a group followed by `'.'` switches to an embedded IPv4 address
for the final four bytes; groups are separated by `':'`, a second
consecutive `':'` records the ellipsis.

The first argument only bounds the iteration count so that the
recursion is structural: every iteration raises `i` by 2 and the loop
stops as soon as `16 ≤ i`, so from the entry state (`i = 0`) at most 8
iterations happen and the bound 16 used by `parseIPv6Go` is never
reached; on exhaustion the loop exit is taken, as in Go. -/
def ipv6Loop : Nat → List Char → Nat → Option Nat → List Nat →
    Option (List Nat)
  | 0, s, i, ell, acc => ipv6Finish s i ell acc
  | fuel + 1, s, i, ell, acc =>
    if 16 ≤ i then ipv6Finish s i ell acc
    else
      match hexGroup s with
      | none => none
      | some (v, rest) =>
        if rest.head? = some '.' then
          if (ell.isNone ∧ i ≠ 12) ∨ 16 < i + 4 then none
          else
            match parseIPv4Go s with
            | none => none
            | some bs => ipv6Finish [] (i + 4) ell (acc ++ bs)
        else if rest.isEmpty then
          ipv6Finish [] (i + 2) ell (acc ++ [v / 256, v % 256])
        else if rest.head? ≠ some ':' then none
        else if rest.tail.isEmpty then none
        else if rest.tail.head? = some ':' then
          if ell.isSome then none
          else if rest.tail.tail.isEmpty then
            ipv6Finish [] (i + 2) (some (i + 2)) (acc ++ [v / 256, v % 256])
          else ipv6Loop fuel rest.tail.tail (i + 2) (some (i + 2))
            (acc ++ [v / 256, v % 256])
        else ipv6Loop fuel rest.tail (i + 2) ell (acc ++ [v / 256, v % 256])

/-- Model of `netip.parseIPv6` on a zone-free string: handle a leading
`"::"` (in particular the all-zero address), then run the main loop. -/
def parseIPv6Go (cs : List Char) : Option (List Nat) :=
  if cs.head? = some ':' ∧ cs.tail.head? = some ':' then
    if cs.tail.tail.isEmpty then some (List.replicate 16 0)
    else ipv6Loop 16 cs.tail.tail 0 (some 0) []
  else ipv6Loop 16 cs 0 none []

/-- First of the dispatch characters `'.'`, `':'`, `'%'` occurring in the
string, as scanned by `netip.ParseAddr`. -/
def firstSep : List Char → Option Char
  | [] => none
  | c :: cs => if c = '.' || c = ':' || c = '%' then some c else firstSep cs

/-- The IPv4-in-IPv6 mapped form `::ffff:a.b.c.d` of four IPv4 bytes:
`net.ParseIP` returns every address as 16 bytes (`Addr.As16`). -/
def v4InV6 (bs : List Nat) : List Nat :=
  [0, 0, 0, 0, 0, 0, 0, 0, 0, 0, 255, 255] ++ bs

/-- Model of Go `net.ParseIP`: dispatch on the first of `'.'`/`':'`
(`netip.ParseAddr`), with `none` for a string containing no such
character; any `'%'` (an IPv6 zone, or a zone error) makes `net.ParseIP`
return nil, since it rejects addresses carrying a zone. -/
def parseIPGo (s : String) : Option (List Nat) :=
  if hasChar '%' s.data then none
  else
    match firstSep s.data with
    | none => none
    | some c =>
      if c = '.' then (parseIPv4Go s.data).map v4InV6
      else if c = ':' then parseIPv6Go s.data
      else none

/-! ## Go `net.ParseCIDR` and `net.IPNet.Contains` -/

/-- The bytes of Go `net.CIDRMask(ones, bits)`: the first `ones` bits
set, most significant first. -/
def cidrMask (ones bits : Nat) : List Nat :=
  (List.range (bits / 8)).map fun k =>
    if (k + 1) * 8 ≤ ones then 255
    else if 8 * k < ones then (255 <<< ((k + 1) * 8 - ones)) &&& 255
    else 0

/-- Model of `net.ParseCIDR`: split at the first `'/'`, parse the
address part as an IPv4 (4 bytes) or IPv6 (16 bytes) literal, parse the
prefix length as a decimal number of at most the address bit length, and
return the masked network address with its mask — the `*net.IPNet` the
`realip` init loop stores. -/
def parseCIDRGo (s : String) : Option (List Nat × List Nat) :=
  match firstIdx '/' s.data with
  | none => none
  | some i =>
    let addr := s.data.take i
    let maskStr := s.data.drop (i + 1)
    let ipBits : Option (List Nat × Nat) :=
      if hasChar '%' addr then none
      else
        match firstSep addr with
        | none => none
        | some c =>
          if c = '.' then (parseIPv4Go addr).map (·, 32)
          else if c = ':' then (parseIPv6Go addr).map (·, 128)
          else none
    match ipBits with
    | none => none
    | some (ip, bits) =>
      if maskStr.isEmpty then none
      else if !(maskStr.all isDig) then none
      else
        let n := maskStr.foldl (fun a c => a * 10 + digVal c) 0
        if bits < n then none
        else
          let m := cidrMask n bits
          some (List.zipWith (fun a b => a &&& b) ip m, m)

/-- The CIDR block strings of the package's `init` function
(`maxCidrBlocks` in `realip.go`). -/
def maxCidrBlocks : List String :=
  ["127.0.0.1/8", "10.0.0.0/8", "172.16.0.0/12", "192.168.0.0/16",
   "169.254.0.0/16", "::1/128", "fc00::/7", "fe80::/10"]

/-- The package-level `cidrs` table built by `init`: every entry of
`maxCidrBlocks` parsed by `net.ParseCIDR` (all eight parse successfully). -/
def cidrs : List (List Nat × List Nat) :=
  maxCidrBlocks.filterMap parseCIDRGo

/-- Model of Go `IP.To4`: a 4-byte address is returned as is, a 16-byte
address only when it has the IPv4-in-IPv6 prefix. -/
def to4 (ip : List Nat) : Option (List Nat) :=
  if ip.length = 4 then some ip
  else if ip.length = 16 && ip.take 10 = List.replicate 10 0 &&
      ip.get? 10 = some 255 && ip.get? 11 = some 255 then
    some (ip.drop 12)
  else none

/-- Model of Go `(*net.IPNet).Contains`: reduce the address to 4 bytes
when possible, require equal lengths, then compare all bytes under the
mask (the stored network is already masked, as `networkNumberAndMask`
yields it for our table). -/
def ipnetContains (n : List Nat × List Nat) (ip : List Nat) : Bool :=
  let ip' := match to4 ip with
    | some x => x
    | none => ip
  ip'.length = n.1.length &&
    (List.zip (List.zip n.1 n.2) ip').all
      fun p => p.1.1 &&& p.1.2 = p.2 &&& p.1.2

/-! ## The `realip` package functions -/

/-- `isPrivateAddress` from `realip.go`: parse the address with
`net.ParseIP` (`none` models the returned error) and test membership in
each entry of `cidrs`. -/
def isPrivateAddress (address : String) : Option Bool :=
  (parseIPGo address).map fun ip => cidrs.any fun n => ipnetContains n ip

/-- Model of Go `net.SplitHostPort`: the port starts after the last
colon; a leading `'['` demands the first `']'` directly before that
colon; an unbracketed host may not contain a colon; stray brackets are
rejected.  `none` models every error return (whose host result is `""`). -/
def splitHostPortGo (hostPort : String) : Option (String × String) :=
  let cs := hostPort.data
  match lastIdx ':' cs with
  | none => none
  | some i =>
    if cs.head? = some '[' then
      match firstIdx ']' cs with
      | none => none
      | some e =>
        if e + 1 = cs.length then none
        else if e + 1 = i then
          if hasChar '[' (cs.drop 1) then none
          else if hasChar ']' (cs.drop (e + 1)) then none
          else some (⟨(cs.drop 1).take (e - 1)⟩, ⟨cs.drop (i + 1)⟩)
        else none
    else
      if hasChar ':' (cs.take i) then none
      else if hasChar '[' cs then none
      else if hasChar ']' cs then none
      else some (⟨cs.take i⟩, ⟨cs.drop (i + 1)⟩)

/-- `getIPfromHostPort` from `realip.go`: if the string contains a
colon, split host from port (an error leaves the empty string), else
keep the string; finally trim whitespace. -/
def getIPfromHostPort (hostPort : String) : String :=
  let remoteIP :=
    if hasChar ':' hostPort.data then
      match splitHostPortGo hostPort with
      | some (h, _) => h
      | none => ""
    else hostPort
  trimSpaceGo remoteIP

/-- `isValidPublicIP` from `realip.go`: `err == nil && !isPrivate`. -/
def isValidPublicIP (ip : String) : Bool :=
  match isPrivateAddress ip with
  | some b => !b
  | none => false

/-- The slice of an `http.Request` the package reads: the connection
address `RemoteAddr` and the three header values the resolvers fetch
with `Header.Get` (empty string when the header is absent). -/
structure Request where
  remoteAddr : String
  xForwardedFor : String
  xRealIp : String
  xClientIp : String

/-- The `X-Forwarded-For` loop of `ClientIPFromRequest`: extract each
comma-separated candidate with `getIPfromHostPort` and return the first
extracted address passing `isValidPublicIP`. -/
def firstPublicXFF : List String → Option String
  | [] => none
  | a :: rest =>
    let clientIP := getIPfromHostPort a
    if isValidPublicIP clientIP then some clientIP else firstPublicXFF rest

/-- `ClientIPFromRequest` from `realip.go`: first public entry of the
comma-split `X-Forwarded-For` header, then `X-Real-Ip`, then
`X-Client-Ip`, then `RemoteAddr`, each extracted and validated; the pair
`("", "")` when every source fails. -/
def ClientIPFromRequest (r : Request) : String × String :=
  match firstPublicXFF (splitGo ',' r.xForwardedFor) with
  | some ip => (ip, "X-Forwarded-For")
  | none =>
    let c1 := getIPfromHostPort r.xRealIp
    if isValidPublicIP c1 then (c1, "X-Real-Ip")
    else
      let c2 := getIPfromHostPort r.xClientIp
      if isValidPublicIP c2 then (c2, "X-Client-Ip")
      else
        let c3 := getIPfromHostPort r.remoteAddr
        if isValidPublicIP c3 then (c3, "remoteAddr")
        else ("", "")

/-- The `X-Forwarded-For` loop of `FromRequest`: trim each
comma-separated candidate and return the first with
`isPrivateAddress = (false, nil)` — no port stripping here. -/
def firstPublicLegacy : List String → Option String
  | [] => none
  | a :: rest =>
    let address := trimSpaceGo a
    match isPrivateAddress address with
    | some false => some address
    | _ => firstPublicLegacy rest

/-- `FromRequest` from `realip.go`: with both headers empty, the
connection address with at most the port stripped (unclassified);
otherwise the first public trimmed `X-Forwarded-For` entry, and failing
that the `X-Real-Ip` value unconditionally. -/
def FromRequest (r : Request) : String :=
  if r.xRealIp = "" && r.xForwardedFor = "" then
    if hasChar ':' r.remoteAddr.data then
      match splitHostPortGo r.remoteAddr with
      | some (h, _) => h
      | none => ""
    else r.remoteAddr
  else
    match firstPublicLegacy (splitGo ',' r.xForwardedFor) with
    | some a => a
    | none => r.xRealIp

/-- `RealIP` from `realip.go`, a deprecated alias of `FromRequest`. -/
def RealIP (r : Request) : String :=
  FromRequest r

/-! ## Helper lemmas -/

lemma isValidPublicIP_iff (ip : String) :
    isValidPublicIP ip = true ↔ isPrivateAddress ip = some false := by
  unfold isValidPublicIP
  cases h : isPrivateAddress ip with
  | none => simp
  | some b => cases b <;> simp

lemma pub_ne_empty {x : String} (h : isValidPublicIP x = true) : x ≠ "" := by
  intro he
  rw [he] at h
  exact absurd h (by decide)

lemma firstPublicXFF_eq_find (l : List String) :
    firstPublicXFF l =
      (l.find? fun a => isValidPublicIP (getIPfromHostPort a)).map
        fun a => getIPfromHostPort a := by
  induction l with
  | nil => rfl
  | cons a rest ih =>
    by_cases h : isValidPublicIP (getIPfromHostPort a) = true
    · simp [firstPublicXFF, List.find?_cons, h]
    · simp only [Bool.not_eq_true] at h
      simp [firstPublicXFF, List.find?_cons, h, ih]

lemma firstPublicXFF_some (l : List String) (ip : String)
    (h : firstPublicXFF l = some ip) : isValidPublicIP ip = true := by
  induction l with
  | nil => exact absurd h (by simp [firstPublicXFF])
  | cons a rest ih =>
    by_cases hp : isValidPublicIP (getIPfromHostPort a) = true
    · rw [firstPublicXFF, if_pos hp] at h
      cases h
      exact hp
    · rw [firstPublicXFF, if_neg hp] at h
      exact ih h

lemma firstPublicLegacy_eq_find (l : List String) :
    firstPublicLegacy l =
      (l.map trimSpaceGo).find? fun a => isPrivateAddress a = some false := by
  induction l with
  | nil => rfl
  | cons a rest ih =>
    rcases hc : isPrivateAddress (trimSpaceGo a) with _ | b
    · simp [firstPublicLegacy, List.find?_cons, hc, ih]
    · cases b <;> simp [firstPublicLegacy, List.find?_cons, hc, ih]

/-- Case analysis on `ClientIPFromRequest`: the outcome is either the
empty pair or a validated address with one of the four source tags. -/
lemma clientIP_shape (r : Request) :
    ClientIPFromRequest r = ("", "") ∨
      (isValidPublicIP (ClientIPFromRequest r).1 = true ∧
        (ClientIPFromRequest r).2 ∈
          (["X-Forwarded-For", "X-Real-Ip", "X-Client-Ip",
            "remoteAddr"] : List String)) := by
  cases hx : firstPublicXFF (splitGo ',' r.xForwardedFor) with
  | some ip =>
    right
    simp [ClientIPFromRequest, hx, firstPublicXFF_some _ _ hx]
  | none =>
    by_cases h1 : isValidPublicIP (getIPfromHostPort r.xRealIp) = true
    · right; simp [ClientIPFromRequest, hx, h1]
    · by_cases h2 : isValidPublicIP (getIPfromHostPort r.xClientIp) = true
      · right; simp [ClientIPFromRequest, hx, h1, h2]
      · by_cases h3 : isValidPublicIP (getIPfromHostPort r.remoteAddr) = true
        · right; simp [ClientIPFromRequest, hx, h1, h2, h3]
        · left; simp [ClientIPFromRequest, hx, h1, h2, h3]

/-! ## Claim theorems: extractor and legacy resolver -/

/-- C7: the extractor `getIPfromHostPort` returns the whole (trimmed)
string when it has no colon; with a colon it splits off the port,
yielding the empty string when the split fails and the trimmed host when
it succeeds; in particular `"127.0.0.1:1234"`, `"127.0.0.1"` and
`" 127.0.0.1 "` all map to `"127.0.0.1"`. -/
theorem c7_extractor :
    (∀ s : String, hasChar ':' s.data = false →
      getIPfromHostPort s = trimSpaceGo s)
    ∧ (∀ s : String, hasChar ':' s.data = true → splitHostPortGo s = none →
      getIPfromHostPort s = "")
    ∧ (∀ s h p, hasChar ':' s.data = true → splitHostPortGo s = some (h, p) →
      getIPfromHostPort s = trimSpaceGo h)
    ∧ getIPfromHostPort "127.0.0.1:1234" = "127.0.0.1"
    ∧ getIPfromHostPort "127.0.0.1" = "127.0.0.1"
    ∧ getIPfromHostPort " 127.0.0.1 " = "127.0.0.1" := by
  refine ⟨?_, ?_, ?_, by decide, by decide, by decide⟩
  · intro s hc
    simp [getIPfromHostPort, hc]
  · intro s hc hsplit
    simp [getIPfromHostPort, hc, hsplit]
    rfl
  · intro s h p hc hsplit
    simp [getIPfromHostPort, hc, hsplit]

/-- C7 witness: the three cases of `c7_extractor` applied at concrete
inputs. -/
theorem c7_extractor_witness :
    getIPfromHostPort "10.0.0.5" = trimSpaceGo "10.0.0.5"
    ∧ getIPfromHostPort "::1" = ""
    ∧ getIPfromHostPort "[::1]:8080" = trimSpaceGo "::1" :=
  ⟨c7_extractor.1 "10.0.0.5" (by decide),
   c7_extractor.2.1 "::1" (by decide) (by decide),
   c7_extractor.2.2.1 "[::1]:8080" "::1" "8080" (by decide) (by decide)⟩

/-- C6: with both headers empty, the legacy resolver `FromRequest`
returns the connection address with only the port stripped and no
public/private check: `"144.12.54.87"` comes back verbatim, and so do
the private `"127.0.0.1"` and the port-stripped private
`"10.0.0.1:8080"`. -/
theorem c6_legacy_no_headers :
    (∀ r : Request, r.xRealIp = "" → r.xForwardedFor = "" →
      FromRequest r =
        if hasChar ':' r.remoteAddr.data then
          match splitHostPortGo r.remoteAddr with
          | some (h, _) => h
          | none => ""
        else r.remoteAddr)
    ∧ FromRequest ⟨"144.12.54.87", "", "", ""⟩ = "144.12.54.87"
    ∧ FromRequest ⟨"127.0.0.1", "", "", ""⟩ = "127.0.0.1"
    ∧ FromRequest ⟨"10.0.0.1:8080", "", "", ""⟩ = "10.0.0.1" := by
  refine ⟨?_, by decide, by decide, by decide⟩
  intro r h1 h2
  simp [FromRequest, h1, h2]

/-- C6 witness: `c6_legacy_no_headers` applied at a concrete request. -/
theorem c6_legacy_no_headers_witness :
    FromRequest ⟨"8.8.8.8", "", "", ""⟩ = "8.8.8.8" :=
  (c6_legacy_no_headers.1 ⟨"8.8.8.8", "", "", ""⟩ rfl rfl).trans (by decide)

/-- C5: when the legacy resolver's forwarding-chain scan finds no
public entry (and at least one of the two headers is set), `FromRequest`
returns the `X-Real-Ip` value unconditionally, with no re-validation —
at the concrete input it returns the private address `"10.0.0.1"`; the
spec's chain `"127.0.0.0, 144.12.54.87"` instead yields
`"144.12.54.87"` for every surrounding request. -/
theorem c5_legacy_fallback :
    (∀ r : Request, ¬(r.xRealIp = "" ∧ r.xForwardedFor = "") →
      firstPublicLegacy (splitGo ',' r.xForwardedFor) = none →
      FromRequest r = r.xRealIp)
    ∧ FromRequest ⟨"", "127.0.0.1", "10.0.0.1", ""⟩ = "10.0.0.1"
    ∧ isPrivateAddress "10.0.0.1" = some true
    ∧ (∀ ra ri ci,
        FromRequest ⟨ra, "127.0.0.0, 144.12.54.87", ri, ci⟩
          = "144.12.54.87") := by
  refine ⟨?_, by decide, by decide, ?_⟩
  · intro r h hn
    have hc : (r.xRealIp = "" && r.xForwardedFor = "" : Bool) = false := by
      by_cases h1 : r.xRealIp = "" <;> by_cases h2 : r.xForwardedFor = "" <;>
        simp_all
    simp [FromRequest, hc, hn]
  · intro ra ri ci
    have hf : firstPublicLegacy (splitGo ',' "127.0.0.0, 144.12.54.87")
        = some "144.12.54.87" := by decide
    simp [FromRequest, hf]

/-- C5 witness: `c5_legacy_fallback` applied at a concrete request whose
chain has no public entry and whose real-IP value is private. -/
theorem c5_legacy_fallback_witness :
    FromRequest ⟨"", "127.0.0.1", "10.0.0.1", ""⟩ = "10.0.0.1" :=
  c5_legacy_fallback.1 ⟨"", "127.0.0.1", "10.0.0.1", ""⟩ (by simp)
    (by decide)

/-- C8: the classifier `isPrivateAddress` errs exactly on inputs that
`net.ParseIP` rejects — the error case of the model is `none`, and it
occurs if and only if parsing fails; the empty string, `"abc"` and a
hostname all err, while valid IPv4 and IPv6 literals do not. -/
theorem c8_classifier_error :
    (∀ s : String, isPrivateAddress s = none ↔ parseIPGo s = none)
    ∧ isPrivateAddress "" = none
    ∧ isPrivateAddress "abc" = none
    ∧ isPrivateAddress "hostname.example.com" = none
    ∧ (isPrivateAddress "147.12.56.11").isSome = true
    ∧ (isPrivateAddress "::1").isSome = true := by
  refine ⟨?_, by decide, by decide, by decide, by decide, by decide⟩
  intro s
  unfold isPrivateAddress
  cases parseIPGo s <;> simp

/-- C8 witness: the equivalence of `c8_classifier_error` applied at a
concrete non-IP string. -/
theorem c8_classifier_error_witness :
    isPrivateAddress "not an ip" = none :=
  (c8_classifier_error.1 "not an ip").mpr (by decide)

/-! ## Claim theorems: primary resolver -/

/-- C4: the primary resolver is total and error-free: for every request
the result is either the empty pair `("", "")` or a non-empty address
with one of the four source tags, and the fully malformed request
(connection address `"--"`, real-IP `":"`, forwarded chain `":"`)
yields `("", "")`. -/
theorem c4_total :
    (∀ r : Request,
      ClientIPFromRequest r = ("", "") ∨
        ((ClientIPFromRequest r).1 ≠ "" ∧
          (ClientIPFromRequest r).2 ∈
            (["X-Forwarded-For", "X-Real-Ip", "X-Client-Ip",
              "remoteAddr"] : List String)))
    ∧ ClientIPFromRequest ⟨"--", ":", ":", ""⟩ = ("", "") := by
  refine ⟨?_, by decide⟩
  intro r
  rcases clientIP_shape r with h | ⟨h1, h2⟩
  · exact Or.inl h
  · exact Or.inr ⟨pub_ne_empty h1, h2⟩

/-- C3: whenever the primary resolver returns a non-empty address, that
address parses as an IP literal and classifies as non-private
(`isPrivateAddress` returns `(false, nil)` on it), no matter which
header or the connection address supplied it. -/
theorem c3_revalidated (r : Request)
    (h : (ClientIPFromRequest r).1 ≠ "") :
    isPrivateAddress (ClientIPFromRequest r).1 = some false := by
  rcases clientIP_shape r with hr | ⟨h1, _⟩
  · rw [hr] at h
    exact absurd rfl h
  · exact (isValidPublicIP_iff _).mp h1

/-- C3 witness: `c3_revalidated` at a request whose only public source
is the forwarding header; the private header values are not returned. -/
theorem c3_revalidated_witness :
    (ClientIPFromRequest ⟨"10.0.0.1:99", "9.9.9.9", "127.0.0.1", ""⟩).1 ≠ ""
    ∧ isPrivateAddress
        (ClientIPFromRequest ⟨"10.0.0.1:99", "9.9.9.9", "127.0.0.1", ""⟩).1
        = some false :=
  ⟨by decide, c3_revalidated ⟨"10.0.0.1:99", "9.9.9.9", "127.0.0.1", ""⟩
    (by decide)⟩

/-- C1: the primary resolver is a strict first-match-wins cascade.  When
the comma-split forwarding chain has a candidate whose extraction
passes the public test, the first such candidate is returned with the
forwarded-for source tag (the code string `"X-Forwarded-For"`, the
spec's label `header-forwarded-for`); otherwise the `X-Real-Ip`
header (spec label `header-real-ip`), then the `X-Client-Ip` header
(spec label `header-client-ip`), then the connection address (code tag
`"remoteAddr"`, spec label `connection-address`) are tried in order;
and on the spec's concrete chain the result is
`("115.98.247.136", "X-Forwarded-For")` whatever the other sources
hold. -/
theorem c1_priority (r : Request) :
    (∀ a, ((splitGo ',' r.xForwardedFor).find?
        fun a => isValidPublicIP (getIPfromHostPort a)) = some a →
      ClientIPFromRequest r = (getIPfromHostPort a, "X-Forwarded-For"))
    ∧ (((splitGo ',' r.xForwardedFor).find?
        fun a => isValidPublicIP (getIPfromHostPort a)) = none →
      (isValidPublicIP (getIPfromHostPort r.xRealIp) = true →
        ClientIPFromRequest r = (getIPfromHostPort r.xRealIp, "X-Real-Ip"))
      ∧ (isValidPublicIP (getIPfromHostPort r.xRealIp) = false →
        (isValidPublicIP (getIPfromHostPort r.xClientIp) = true →
          ClientIPFromRequest r
            = (getIPfromHostPort r.xClientIp, "X-Client-Ip"))
        ∧ (isValidPublicIP (getIPfromHostPort r.xClientIp) = false →
          (isValidPublicIP (getIPfromHostPort r.remoteAddr) = true →
            ClientIPFromRequest r
              = (getIPfromHostPort r.remoteAddr, "remoteAddr"))
          ∧ (isValidPublicIP (getIPfromHostPort r.remoteAddr) = false →
            ClientIPFromRequest r = ("", "")))))
    ∧ (∀ ra ri ci, ClientIPFromRequest
        ⟨ra, " 127.0.0.1 , 115.98.247.136, 144.12.54.87:1234 , 119.14.55.11:1234 ,",
          ri, ci⟩
        = ("115.98.247.136", "X-Forwarded-For")) := by
  refine ⟨?_, ?_, ?_⟩
  · intro a ha
    have hx : firstPublicXFF (splitGo ',' r.xForwardedFor)
        = some (getIPfromHostPort a) := by
      rw [firstPublicXFF_eq_find, ha]
      rfl
    simp [ClientIPFromRequest, hx]
  · intro hnone
    have hx : firstPublicXFF (splitGo ',' r.xForwardedFor) = none := by
      rw [firstPublicXFF_eq_find, hnone]
      rfl
    refine ⟨fun h1 => by simp [ClientIPFromRequest, hx, h1], fun h1 => ?_⟩
    refine ⟨fun h2 => by simp [ClientIPFromRequest, hx, h1, h2],
      fun h2 => ?_⟩
    exact ⟨fun h3 => by simp [ClientIPFromRequest, hx, h1, h2, h3],
      fun h3 => by simp [ClientIPFromRequest, hx, h1, h2, h3]⟩
  · intro ra ri ci
    have hx : firstPublicXFF (splitGo ','
        " 127.0.0.1 , 115.98.247.136, 144.12.54.87:1234 , 119.14.55.11:1234 ,")
        = some "115.98.247.136" := by decide
    simp [ClientIPFromRequest, hx]

/-- C1 witness: `c1_priority` at a request whose chain holds a private
then a public candidate. -/
theorem c1_priority_witness :
    ClientIPFromRequest ⟨"", "127.0.0.1,8.8.8.8", "", ""⟩
      = ("8.8.8.8", "X-Forwarded-For") :=
  ((c1_priority ⟨"", "127.0.0.1,8.8.8.8", "", ""⟩).1 "8.8.8.8"
    (by decide)).trans (by decide)

/-! ## Colon-counting lemmas for `SplitHostPort` -/

lemma hasChar_of_count {c : Char} {cs : List Char}
    (h : 1 ≤ countChar c cs) : hasChar c cs = true := by
  induction cs with
  | nil => simp [countChar] at h
  | cons x xs ih =>
    by_cases hx : x = c
    · simp [hasChar, hx]
    · rw [countChar, if_neg hx] at h
      simp [hasChar, hx, ih (by omega)]

lemma lastIdx_none {c : Char} {cs : List Char}
    (h : lastIdx c cs = none) : countChar c cs = 0 := by
  induction cs with
  | nil => rfl
  | cons x xs ih =>
    rcases hl : lastIdx c xs with _ | j
    · rw [lastIdx, hl] at h
      by_cases hx : x = c
      · rw [if_pos hx] at h
        cases h
      · rw [countChar, if_neg hx, ih hl]
    · rw [lastIdx, hl] at h
      cases h

lemma lastIdx_take {c : Char} {cs : List Char} {i : Nat}
    (h : lastIdx c cs = some i) (h2 : 2 ≤ countChar c cs) :
    hasChar c (cs.take i) = true := by
  induction cs generalizing i with
  | nil => cases h
  | cons x xs ih =>
    rcases hl : lastIdx c xs with _ | j
    · have h0 := lastIdx_none hl
      rw [countChar] at h2
      by_cases hx : x = c <;> simp [hx, h0] at h2
    · rw [lastIdx, hl] at h
      cases h
      rw [List.take_succ_cons]
      by_cases hx : x = c
      · simp [hasChar, hx]
      · rw [countChar, if_neg hx] at h2
        simp [hasChar, hx, ih hl (by omega)]

lemma splitHostPortGo_multi_colon (s : String)
    (h1 : s.data.head? ≠ some '[') (h2 : 2 ≤ countChar ':' s.data) :
    splitHostPortGo s = none := by
  rcases hl : lastIdx ':' s.data with _ | i
  · have := lastIdx_none hl
    omega
  · have ht := lastIdx_take hl h2
    simp [splitHostPortGo, hl, h1, ht]

lemma getIP_multi_colon (s : String)
    (h1 : s.data.head? ≠ some '[') (h2 : 2 ≤ countChar ':' s.data) :
    getIPfromHostPort s = "" := by
  have hc : hasChar ':' s.data = true := hasChar_of_count (by omega)
  simp [getIPfromHostPort, hc, splitHostPortGo_multi_colon s h1 h2]
  rfl

lemma splitCharAux_no_sep (sep : Char) (cs : List Char) :
    ∀ acc, hasChar sep cs = false →
      splitCharAux sep cs acc = [acc.reverse ++ cs] := by
  induction cs with
  | nil => intro acc _; simp [splitCharAux]
  | cons c cs' ih =>
    intro acc h
    rw [hasChar, Bool.or_eq_false_iff] at h
    obtain ⟨hc, hrest⟩ := h
    have hcne : ¬(c = sep) := by simpa using hc
    rw [splitCharAux, if_neg hcne, ih _ hrest]
    simp

lemma splitGo_single (s : String) (h : hasChar ',' s.data = false) :
    splitGo ',' s = [s] := by
  unfold splitGo
  rw [splitCharAux_no_sep _ _ _ h]
  rfl

/-! ## Claim theorems: candidate normalization and bare IPv6 -/

/-- C9 counterexample: the legacy resolver `FromRequest` does not apply
the extractor to forwarding-chain candidates: its only chain candidate
`"144.12.54.87:1234"` would extract to the public `"144.12.54.87"`, yet
`FromRequest` classifies the raw (merely trimmed) candidate, fails to
parse it, and falls back to the private real-IP value `"10.0.0.1"`. -/
theorem c9_counterexample :
    FromRequest ⟨"", "144.12.54.87:1234", "10.0.0.1", ""⟩ = "10.0.0.1"
    ∧ getIPfromHostPort "144.12.54.87:1234" = "144.12.54.87"
    ∧ isValidPublicIP "144.12.54.87" = true
    ∧ isPrivateAddress (trimSpaceGo "144.12.54.87:1234") = none := by
  decide

/-- C9 amended: only `ClientIPFromRequest` passes every candidate
through the extractor before the classifier (returning the first chain
candidate whose extraction is public, and likewise for the later
sources); `FromRequest` instead only trims whitespace from each chain
candidate and classifies it directly, with no port stripping. -/
theorem c9_amended :
    (∀ l : List String, firstPublicXFF l =
      (l.find? fun a => isValidPublicIP (getIPfromHostPort a)).map
        fun a => getIPfromHostPort a)
    ∧ (∀ l : List String, firstPublicLegacy l =
      (l.map trimSpaceGo).find? fun a => isPrivateAddress a = some false)
    ∧ (∀ (r : Request) (a : String),
        ((splitGo ',' r.xForwardedFor).find?
          fun a => isValidPublicIP (getIPfromHostPort a)) = some a →
        ClientIPFromRequest r = (getIPfromHostPort a, "X-Forwarded-For"))
    ∧ (∀ (r : Request) (a : String),
        ¬(r.xRealIp = "" ∧ r.xForwardedFor = "") →
        (((splitGo ',' r.xForwardedFor).map trimSpaceGo).find?
          fun a => isPrivateAddress a = some false) = some a →
        FromRequest r = a) := by
  refine ⟨firstPublicXFF_eq_find, firstPublicLegacy_eq_find, ?_, ?_⟩
  · intro r a ha
    have hx : firstPublicXFF (splitGo ',' r.xForwardedFor)
        = some (getIPfromHostPort a) := by
      rw [firstPublicXFF_eq_find, ha]
      rfl
    simp [ClientIPFromRequest, hx]
  · intro r a h hfind
    have hc : (r.xRealIp = "" && r.xForwardedFor = "" : Bool) = false := by
      by_cases h1 : r.xRealIp = "" <;> by_cases h2 : r.xForwardedFor = "" <;>
        simp_all
    have hleg : firstPublicLegacy (splitGo ',' r.xForwardedFor) = some a := by
      rw [firstPublicLegacy_eq_find, hfind]
    simp [FromRequest, hc, hleg]

/-- C9 amended witness: the two resolver clauses of `c9_amended` at
concrete requests — the primary resolver port-strips the chain
candidate, the legacy one returns it merely trimmed. -/
theorem c9_amended_witness :
    ClientIPFromRequest ⟨"", "8.8.8.8:53", "", ""⟩
      = (getIPfromHostPort "8.8.8.8:53", "X-Forwarded-For")
    ∧ FromRequest ⟨"", " 8.8.8.8 ", "10.0.0.1", ""⟩ = "8.8.8.8" :=
  ⟨c9_amended.2.2.1 ⟨"", "8.8.8.8:53", "", ""⟩ "8.8.8.8:53" (by decide),
   c9_amended.2.2.2 ⟨"", " 8.8.8.8 ", "10.0.0.1", ""⟩ "8.8.8.8"
    (by simp) (by decide)⟩

/-- C10: a bare unbracketed string holding two or more colons — every
unbracketed IPv6 literal, with or without further text — makes the
extractor return the empty string (the colon triggers a host:port split
that fails on the extra colons), the empty string never passes the
public test, and a request whose four sources all hold such a
(comma-free) string resolves to `("", "")`: the primary resolver never
returns a bare unbracketed IPv6 candidate. -/
theorem c10_bare_ipv6 (s : String) (h1 : s.data.head? ≠ some '[')
    (h2 : 2 ≤ countChar ':' s.data) :
    getIPfromHostPort s = ""
    ∧ isValidPublicIP (getIPfromHostPort s) = false
    ∧ (hasChar ',' s.data = false →
        ClientIPFromRequest ⟨s, s, s, s⟩ = ("", "")) := by
  have hg : getIPfromHostPort s = "" := getIP_multi_colon s h1 h2
  have hv : isValidPublicIP (getIPfromHostPort s) = false := by
    rw [hg]; decide
  refine ⟨hg, hv, fun hcomma => ?_⟩
  have hx : firstPublicXFF (splitGo ',' s) = none := by
    rw [splitGo_single s hcomma]
    simp [firstPublicXFF, hv]
  simp [ClientIPFromRequest, hx, hv]

/-- C10 witness: `c10_bare_ipv6` at the bare IPv6 literals
`"2001:db8::1"` (a public address) and `"::1"`. -/
theorem c10_bare_ipv6_witness :
    getIPfromHostPort "2001:db8::1" = ""
    ∧ ClientIPFromRequest ⟨"::1", "::1", "::1", "::1"⟩ = ("", "") :=
  ⟨(c10_bare_ipv6 "2001:db8::1" (by decide) (by decide)).1,
   (c10_bare_ipv6 "::1" (by decide) (by decide)).2.2 (by decide)⟩

/-! ## Parsed addresses are 16 bytes below 256 -/

lemma parseOctet_lt {cs : List Char} {v : Nat}
    (h : parseOctet cs = some v) : v < 256 := by
  unfold parseOctet at h
  split_ifs at h with h1 h2 h3 h4 <;> (try cases h)
  omega

lemma parseIPv4Go_inv {cs : List Char} {l : List Nat}
    (h : parseIPv4Go cs = some l) : l.length = 4 ∧ ∀ b ∈ l, b < 256 := by
  unfold parseIPv4Go at h
  split at h
  · split at h
    · rename_i h1 h2 h3 h4
      cases h
      refine ⟨rfl, ?_⟩
      intro x hx
      simp only [List.mem_cons, List.not_mem_nil, or_false] at hx
      rcases hx with rfl | rfl | rfl | rfl
      · exact parseOctet_lt h1
      · exact parseOctet_lt h2
      · exact parseOctet_lt h3
      · exact parseOctet_lt h4
    · cases h
  · cases h

lemma hexVal_lt {c : Char} (h : isHexDig c = true) : hexVal c < 16 := by
  unfold isHexDig at h
  simp only [Bool.or_eq_true, Bool.and_eq_true, decide_eq_true_eq] at h
  unfold hexVal
  split_ifs <;> omega

lemma hexFold_lt (ds : List Char) :
    ∀ a : Nat, (∀ c ∈ ds, isHexDig c = true) →
      List.foldl (fun x c => x * 16 + hexVal c) a ds
        < (a + 1) * 16 ^ ds.length := by
  induction ds with
  | nil =>
    intro a _
    simpa using Nat.lt_succ_self a
  | cons c ds ih =>
    intro a h
    have hv : hexVal c < 16 := hexVal_lt (h c (List.mem_cons_self c ds))
    have hrec := ih (a * 16 + hexVal c)
      (fun x hx => h x (List.mem_cons_of_mem c hx))
    rw [List.foldl_cons, List.length_cons]
    calc List.foldl (fun x c => x * 16 + hexVal c) (a * 16 + hexVal c) ds
        < (a * 16 + hexVal c + 1) * 16 ^ ds.length := hrec
      _ ≤ ((a + 1) * 16) * 16 ^ ds.length :=
        Nat.mul_le_mul_right _ (by omega)
      _ = (a + 1) * 16 ^ (ds.length + 1) := by ring

lemma hexGroup_inv {cs : List Char} {v : Nat} {rest : List Char}
    (h : hexGroup cs = some (v, rest)) : v < 65536 := by
  unfold hexGroup at h
  split_ifs at h with h1
  cases h
  rw [not_or] at h1
  have hlen : (cs.takeWhile isHexDig).length ≤ 4 := by omega
  have hmem : ∀ c ∈ cs.takeWhile isHexDig, isHexDig c = true :=
    fun c hc => List.mem_takeWhile_imp hc
  calc List.foldl (fun x c => x * 16 + hexVal c) 0 (cs.takeWhile isHexDig)
      < (0 + 1) * 16 ^ (cs.takeWhile isHexDig).length :=
        hexFold_lt (cs.takeWhile isHexDig) 0 hmem
    _ ≤ 1 * 16 ^ 4 := by
      simpa using Nat.pow_le_pow_right (by omega) hlen
    _ = 65536 := by norm_num

lemma ipv6Finish_inv {s : List Char} {i : Nat} {ell : Option Nat}
    {acc ip : List Nat}
    (hlen : acc.length = i) (hb : ∀ b ∈ acc, b < 256)
    (hell : ∀ e, ell = some e → e ≤ i) (hi : i ≤ 16)
    (h : ipv6Finish s i ell acc = some ip) :
    ip.length = 16 ∧ ∀ b ∈ ip, b < 256 := by
  unfold ipv6Finish at h
  by_cases h1 : (!s.isEmpty) = true
  · rw [if_pos h1] at h
    cases h
  · rw [if_neg h1] at h
    by_cases h2 : i < 16
    · rw [if_pos h2] at h
      rcases ell with _ | e
      · cases h
      · have he : e ≤ i := hell e rfl
        cases h
        constructor
        · simp only [List.length_append, List.length_take,
            List.length_replicate, List.length_drop, hlen]
          omega
        · intro b hb'
          simp only [List.mem_append] at hb'
          rcases hb' with (hb' | hb') | hb'
          · exact hb b (List.take_subset _ _ hb')
          · rw [List.eq_of_mem_replicate hb']
            omega
          · exact hb b (List.drop_subset _ _ hb')
    · rw [if_neg h2] at h
      by_cases h3 : ell.isSome = true
      · rw [if_pos h3] at h
        cases h
      · rw [if_neg h3] at h
        cases h
        exact ⟨by omega, hb⟩

lemma ipv6Loop_inv (fuel : Nat) :
    ∀ (s : List Char) (i : Nat) (ell : Option Nat) (acc ip : List Nat),
      acc.length = i → (∀ b ∈ acc, b < 256) →
      (∀ e, ell = some e → e ≤ i) → i ≤ 16 → 2 ∣ i →
      ipv6Loop fuel s i ell acc = some ip →
      ip.length = 16 ∧ ∀ b ∈ ip, b < 256 := by
  induction fuel with
  | zero =>
    intro s i ell acc ip h1 h2 h3 h4 _ h
    exact ipv6Finish_inv h1 h2 h3 h4 h
  | succ fuel ih =>
    intro s i ell acc ip h1 h2 h3 h4 hdvd h
    rw [ipv6Loop] at h
    by_cases h16 : 16 ≤ i
    · rw [if_pos h16] at h
      exact ipv6Finish_inv h1 h2 h3 h4 h
    · rw [if_neg h16] at h
      rcases hg : hexGroup s with _ | ⟨v, rest⟩ <;>
        simp only [hg] at h
      · cases h
      · have hv := hexGroup_inv hg
        have hacc2 : ∀ b ∈ acc ++ [v / 256, v % 256], b < 256 := by
          intro b hb'
          rcases List.mem_append.mp hb' with hb' | hb'
          · exact h2 b hb'
          · simp only [List.mem_cons, List.not_mem_nil, or_false] at hb'
            rcases hb' with rfl | rfl <;> omega
        have hlen2 : (acc ++ [v / 256, v % 256]).length = i + 2 := by
          simp [h1]
        by_cases hdot : rest.head? = some '.'
        · rw [if_pos hdot] at h
          by_cases hbad : (ell.isNone = true ∧ i ≠ 12) ∨ 16 < i + 4
          · rw [if_pos hbad] at h
            cases h
          · rw [if_neg hbad] at h
            rcases hip4 : parseIPv4Go s with _ | bs <;>
              simp only [hip4] at h
            · cases h
            · obtain ⟨hbsl, hbsb⟩ := parseIPv4Go_inv hip4
              rw [not_or, not_lt] at hbad
              refine ipv6Finish_inv ?_ ?_ ?_ ?_ h
              · simp [h1, hbsl]
              · intro b hb'
                rcases List.mem_append.mp hb' with hb' | hb'
                · exact h2 b hb'
                · exact hbsb b hb'
              · intro e he
                exact le_trans (h3 e he) (by omega)
              · omega
        · rw [if_neg hdot] at h
          by_cases hre : rest.isEmpty = true
          · rw [if_pos hre] at h
            exact ipv6Finish_inv hlen2 hacc2
              (fun e he => le_trans (h3 e he) (by omega)) (by omega) h
          · rw [if_neg hre] at h
            by_cases hrc : rest.head? ≠ some ':'
            · rw [if_pos hrc] at h
              cases h
            · rw [if_neg hrc] at h
              by_cases hrt : rest.tail.isEmpty = true
              · rw [if_pos hrt] at h
                cases h
              · rw [if_neg hrt] at h
                by_cases hrh : rest.tail.head? = some ':'
                · rw [if_pos hrh] at h
                  by_cases hells : ell.isSome = true
                  · rw [if_pos hells] at h
                    cases h
                  · rw [if_neg hells] at h
                    by_cases hrtt : rest.tail.tail.isEmpty = true
                    · rw [if_pos hrtt] at h
                      exact ipv6Finish_inv hlen2 hacc2
                        (fun e he => by cases he; omega) (by omega) h
                    · rw [if_neg hrtt] at h
                      exact ih rest.tail.tail (i + 2) (some (i + 2)) _ ip
                        hlen2 hacc2 (fun e he => by cases he; omega)
                        (by omega) (by omega) h
                · rw [if_neg hrh] at h
                  exact ih rest.tail (i + 2) ell _ ip hlen2 hacc2
                    (fun e he => le_trans (h3 e he) (by omega)) (by omega)
                    (by omega) h

lemma parseIPv6Go_inv {cs : List Char} {ip : List Nat}
    (h : parseIPv6Go cs = some ip) :
    ip.length = 16 ∧ ∀ b ∈ ip, b < 256 := by
  unfold parseIPv6Go at h
  split_ifs at h with h0 h1
  · cases h
    refine ⟨by simp, ?_⟩
    intro b hb
    rw [List.eq_of_mem_replicate hb]
    omega
  · exact ipv6Loop_inv 16 _ 0 (some 0) [] ip rfl (by simp)
      (fun e he => by cases he; omega) (by omega) (by omega) h
  · exact ipv6Loop_inv 16 _ 0 none [] ip rfl (by simp)
      (fun e he => by cases he) (by omega) (by omega) h

lemma parseIPGo_inv {s : String} {ip : List Nat}
    (h : parseIPGo s = some ip) :
    ip.length = 16 ∧ ∀ b ∈ ip, b < 256 := by
  unfold parseIPGo at h
  split_ifs at h with h1
  rcases hf : firstSep s.data with _ | c <;> simp only [hf] at h
  · cases h
  · split_ifs at h with hdot hcolon
    · rcases hp : parseIPv4Go s.data with _ | bs <;> simp only [hp] at h
      · cases h
      · obtain ⟨hl, hb⟩ := parseIPv4Go_inv hp
        cases h
        constructor
        · simp [v4InV6, hl]
        · intro b hb'
          rcases List.mem_append.mp hb' with hb' | hb'
          · simp only [List.mem_cons, List.not_mem_nil, or_false] at hb'
            rcases hb' with rfl | rfl | rfl | rfl | rfl | rfl | rfl | rfl |
              rfl | rfl | rfl | rfl <;> omega
          · exact hb b hb'
    · exact parseIPv6Go_inv h

/-! ## The classifier agrees with the spec's eight CIDR blocks -/

/-- The spec's private blocks, written as plain byte-range conditions on
a parsed 16-byte address: 10.0.0.0/8, 127.0.0.0/8, 172.16.0.0/12,
192.168.0.0/16, 169.254.0.0/16 on the IPv4 (or IPv4-mapped IPv6) bytes,
and ::1/128, fc00::/7, fe80::/10 on unmapped IPv6 bytes. -/
def inSpecPrivateBlocks (ip : List Nat) : Prop :=
  (∃ a b c d, to4 ip = some [a, b, c, d] ∧
    (a = 10 ∨ a = 127 ∨ (a = 172 ∧ 16 ≤ b ∧ b ≤ 31) ∨ (a = 192 ∧ b = 168) ∨
      (a = 169 ∧ b = 254)))
  ∨ (to4 ip = none ∧
    (ip = List.replicate 15 0 ++ [1]
      ∨ (∃ b0 rest, ip = b0 :: rest ∧ 252 ≤ b0 ∧ b0 ≤ 253)
      ∨ (∃ b0 b1 rest, ip = b0 :: b1 :: rest ∧ b0 = 254 ∧ 128 ≤ b1 ∧
          b1 ≤ 191)))

set_option maxRecDepth 4000 in
lemma land255_self : ∀ b < 256, b &&& 255 = b := by decide

set_option maxRecDepth 4000 in
lemma land240_16 : ∀ b < 256, (16 &&& 240 = b &&& 240 ↔ 16 ≤ b ∧ b ≤ 31) := by
  decide

set_option maxRecDepth 4000 in
lemma land192_128 : ∀ b < 256,
    (128 &&& 192 = b &&& 192 ↔ 128 ≤ b ∧ b ≤ 191) := by decide

set_option maxRecDepth 4000 in
lemma land254_252 : ∀ b < 256,
    (252 &&& 254 = b &&& 254 ↔ 252 ≤ b ∧ b ≤ 253) := by decide

/-- The `cidrs` table evaluated: the eight masked networks of `init`. -/
lemma cidrs_concrete : cidrs =
    [([127, 0, 0, 0], [255, 0, 0, 0]), ([10, 0, 0, 0], [255, 0, 0, 0]),
     ([172, 16, 0, 0], [255, 240, 0, 0]), ([192, 168, 0, 0], [255, 255, 0, 0]),
     ([169, 254, 0, 0], [255, 255, 0, 0]),
     ([0, 0, 0, 0, 0, 0, 0, 0, 0, 0, 0, 0, 0, 0, 0, 1],
      List.replicate 16 255),
     (252 :: List.replicate 15 0, 254 :: List.replicate 15 0),
     (254 :: 128 :: List.replicate 14 0,
      255 :: 192 :: List.replicate 14 0)] := by
  decide

lemma cidrsAny_iff
    (b0 b1 b2 b3 b4 b5 b6 b7 b8 b9 b10 b11 b12 b13 b14 b15 : Nat)
    (hb0 : b0 < 256) (hb1 : b1 < 256) (hb2 : b2 < 256) (hb3 : b3 < 256)
    (hb4 : b4 < 256) (hb5 : b5 < 256) (hb6 : b6 < 256) (hb7 : b7 < 256)
    (hb8 : b8 < 256) (hb9 : b9 < 256) (hb10 : b10 < 256) (hb11 : b11 < 256)
    (hb12 : b12 < 256) (hb13 : b13 < 256) (hb14 : b14 < 256)
    (hb15 : b15 < 256) :
    ((cidrs.any fun n => ipnetContains n
        [b0, b1, b2, b3, b4, b5, b6, b7, b8, b9, b10, b11, b12, b13, b14,
         b15]) = true ↔
      inSpecPrivateBlocks
        [b0, b1, b2, b3, b4, b5, b6, b7, b8, b9, b10, b11, b12, b13, b14,
         b15]) := by
  rw [cidrs_concrete]
  by_cases hmap : b0 = 0 ∧ b1 = 0 ∧ b2 = 0 ∧ b3 = 0 ∧ b4 = 0 ∧ b5 = 0 ∧
      b6 = 0 ∧ b7 = 0 ∧ b8 = 0 ∧ b9 = 0 ∧ b10 = 255 ∧ b11 = 255
  · obtain ⟨rfl, rfl, rfl, rfl, rfl, rfl, rfl, rfl, rfl, rfl, rfl, rfl⟩ :=
      hmap
    simp only [ipnetContains, to4, inSpecPrivateBlocks]
    simp [land255_self _ hb12, land255_self _ hb13, land240_16 _ hb13,
      land255_self 127 (by omega), land255_self 10 (by omega),
      land255_self 172 (by omega), land255_self 192 (by omega),
      land255_self 168 (by omega), land255_self 169 (by omega),
      land255_self 254 (by omega)]
    constructor
    · intro hl
      exact ⟨b12, b13, ⟨rfl, rfl⟩, by omega⟩
    · rintro ⟨a, b, ⟨rfl, rfl⟩, hp⟩
      omega
  · have hto4 : to4 [b0, b1, b2, b3, b4, b5, b6, b7, b8, b9, b10, b11,
        b12, b13, b14, b15] = none := by
      simp [to4]
      omega
    simp only [ipnetContains, hto4, inSpecPrivateBlocks]
    simp [land255_self _ hb0, land255_self _ hb1, land255_self _ hb2,
      land255_self _ hb3, land255_self _ hb4, land255_self _ hb5,
      land255_self _ hb6, land255_self _ hb7, land255_self _ hb8,
      land255_self _ hb9, land255_self _ hb10, land255_self _ hb11,
      land255_self _ hb12, land255_self _ hb13, land255_self _ hb14,
      land255_self _ hb15, land192_128 _ hb1, land254_252 _ hb0,
      land255_self 254 (by omega), land255_self 0 (by omega),
      land255_self 1 (by omega)]
    constructor
    · rintro (h | h | h)
      · exact Or.inl (by omega)
      · exact Or.inr (Or.inl (by omega))
      · exact Or.inr (Or.inr ⟨b0, b1, ⟨rfl, rfl⟩, by omega⟩)
    · rintro (h | h | ⟨a, b, ⟨rfl, rfl⟩, hp⟩) <;> omega

/-- Destructure a 16-byte list into its bytes. -/
lemma list16_cases (ip : List Nat) (h : ip.length = 16) :
    ∃ b0 b1 b2 b3 b4 b5 b6 b7 b8 b9 b10 b11 b12 b13 b14 b15,
      ip = [b0, b1, b2, b3, b4, b5, b6, b7, b8, b9, b10, b11, b12, b13,
        b14, b15] := by
  rcases ip with _ | ⟨b0, ip⟩; · simp at h
  rcases ip with _ | ⟨b1, ip⟩; · simp at h
  rcases ip with _ | ⟨b2, ip⟩; · simp at h
  rcases ip with _ | ⟨b3, ip⟩; · simp at h
  rcases ip with _ | ⟨b4, ip⟩; · simp at h
  rcases ip with _ | ⟨b5, ip⟩; · simp at h
  rcases ip with _ | ⟨b6, ip⟩; · simp at h
  rcases ip with _ | ⟨b7, ip⟩; · simp at h
  rcases ip with _ | ⟨b8, ip⟩; · simp at h
  rcases ip with _ | ⟨b9, ip⟩; · simp at h
  rcases ip with _ | ⟨b10, ip⟩; · simp at h
  rcases ip with _ | ⟨b11, ip⟩; · simp at h
  rcases ip with _ | ⟨b12, ip⟩; · simp at h
  rcases ip with _ | ⟨b13, ip⟩; · simp at h
  rcases ip with _ | ⟨b14, ip⟩; · simp at h
  rcases ip with _ | ⟨b15, ip⟩; · simp at h
  rcases ip with _ | ⟨b16, ip⟩
  · exact ⟨b0, b1, b2, b3, b4, b5, b6, b7, b8, b9, b10, b11, b12, b13,
      b14, b15, rfl⟩
  · simp at h

/-- The computational core of the classifier claim: on any in-range
16-byte address, membership in the `cidrs` table coincides with the
spec's block conditions. -/
lemma cidrsAny_iff_of_inv (ip : List Nat) (hlen : ip.length = 16)
    (hb : ∀ b ∈ ip, b < 256) :
    ((cidrs.any fun n => ipnetContains n ip) = true ↔
      inSpecPrivateBlocks ip) := by
  obtain ⟨b0, b1, b2, b3, b4, b5, b6, b7, b8, b9, b10, b11, b12, b13, b14,
    b15, rfl⟩ := list16_cases ip hlen
  simp only [List.mem_cons, List.not_mem_nil, or_false, forall_eq_or_imp,
    forall_eq] at hb
  obtain ⟨hb0, hb1, hb2, hb3, hb4, hb5, hb6, hb7, hb8, hb9, hb10, hb11,
    hb12, hb13, hb14, hb15⟩ := hb
  exact cidrsAny_iff b0 b1 b2 b3 b4 b5 b6 b7 b8 b9 b10 b11 b12 b13 b14 b15
    hb0 hb1 hb2 hb3 hb4 hb5 hb6 hb7 hb8 hb9 hb10 hb11 hb12 hb13 hb14 hb15

/-- C2: the classifier agrees with the spec's eight private blocks on
every parseable IP literal — `isPrivateAddress` answers `(true, nil)`
exactly when the parsed address lies in one of the blocks 10.0.0.0/8,
172.16.0.0/12, 192.168.0.0/16, 127.0.0.0/8, 169.254.0.0/16, ::1/128,
fc00::/7, fe80::/10 (an IPv4-mapped IPv6 literal counting as its IPv4
address), and `(false, nil)` exactly otherwise; at the /12 boundary,
172.15.0.0 and 172.32.0.0 are public while 172.16.0.0 and 172.31.0.0
are private. -/
theorem c2_classifier :
    (∀ (s : String) (ip : List Nat), parseIPGo s = some ip →
      ((isPrivateAddress s = some true ↔ inSpecPrivateBlocks ip)
        ∧ (isPrivateAddress s = some false ↔ ¬ inSpecPrivateBlocks ip)))
    ∧ isPrivateAddress "172.15.0.0" = some false
    ∧ isPrivateAddress "172.16.0.0" = some true
    ∧ isPrivateAddress "172.31.0.0" = some true
    ∧ isPrivateAddress "172.32.0.0" = some false := by
  refine ⟨?_, by decide, by decide, by decide, by decide⟩
  intro s ip h
  obtain ⟨hlen, hb⟩ := parseIPGo_inv h
  have hiff := cidrsAny_iff_of_inv ip hlen hb
  have hval : isPrivateAddress s
      = some (cidrs.any fun n => ipnetContains n ip) := by
    unfold isPrivateAddress
    rw [h]
    rfl
  rw [hval]
  constructor
  · constructor
    · intro hsome
      exact hiff.mp (by simpa using hsome)
    · intro hspec
      simpa using hiff.mpr hspec
  · constructor
    · intro hsome hspec
      have := hiff.mpr hspec
      simp only [Option.some.injEq] at hsome
      rw [hsome] at this
      cases this
    · intro hnspec
      rcases hany : (cidrs.any fun n => ipnetContains n ip) with _ | _
      · rfl
      · exact absurd (hiff.mp hany) hnspec

/-- C2 witness: `c2_classifier` applied at the boundary literal
`"172.16.0.0"` and at the public `"8.8.8.8"`. -/
theorem c2_classifier_witness :
    (isPrivateAddress "172.16.0.0" = some true ↔
      inSpecPrivateBlocks [0, 0, 0, 0, 0, 0, 0, 0, 0, 0, 255, 255,
        172, 16, 0, 0])
    ∧ (isPrivateAddress "8.8.8.8" = some false ↔
      ¬ inSpecPrivateBlocks [0, 0, 0, 0, 0, 0, 0, 0, 0, 0, 255, 255,
        8, 8, 8, 8]) :=
  ⟨(c2_classifier.1 "172.16.0.0" _ (by decide)).1,
   (c2_classifier.1 "8.8.8.8" _ (by decide)).2⟩

end Realip
